import Mathlib

/-
Verification of the agent-based battle simulation in `src/app.py`.

The program defines `BattleAgent` (a mesa `Agent`) and `BattleModel` (a mesa
`Model` holding a `MultiGrid(width, height, True)` -- a toroidal multi-occupancy
grid -- and a `SimultaneousActivation` scheduler).  Because every agent's
`step` mutates the world directly and `advance` is the inherited no-op, the
scheduler's two-phase loop degenerates to sequential activation in insertion
order, skipping agents removed earlier in the same tick (mesa's `agent_buffer`
snapshots the key list and checks membership before yielding).

The embedding below translates the Python file together with the mesa grid and
scheduler operations it calls:
  * grid cells hold lists of agent ids; `place_agent` appends only when the
    agent is unplaced or absent from the target cell, `remove_agent` deletes
    the first occurrence and clears `pos`, `move_agent` is remove-then-place
    after torus normalisation (mesa `MultiGrid` semantics);
  * `get_neighborhood (moore, not include_center, radius, torus)` yields the
    cells at toroidal Chebyshev distance between 1 and `radius`;
  * python's `random` module is modelled by an abstract stream `g : Nat → Nat`
    with a cursor: each draw reads the stream at the cursor and advances it
    (`randint a b` maps a raw draw into `[a, b]`, `choice` indexes a list).
    The model RNG that mesa seeds from the global generator is represented by
    the same stream, threaded through construction and stepping.

Machine integers do not overflow here (strength only ever increments), so
agent fields are plain `Nat`/`String`.
-/

namespace Battle

abbrev Coord := Nat × Nat

/-- Agent state: the fields assigned in `BattleAgent.__init__` plus mesa's
`pos` attribute (`none` while unplaced or after removal).  Note that `x`, `y`
are set once at construction and nothing in the source ever reassigns them,
while `pos` is kept current by the mesa grid operations. -/
structure BattleAgent where
  unique_id : Nat
  team : String
  strength : Nat
  health : Nat
  move_distance : Nat
  x : Nat
  y : Nat
  pos : Option Coord
deriving DecidableEq, Repr

/-- Model state: construction parameters, the agent arena indexed by
`unique_id` (ids are `0, 1, ...` in creation order, so the list index is the
id), the scheduler's live id list in insertion order, and the grid's
cell-to-occupant-ids index. -/
structure BattleModel where
  num_agents : Nat
  width : Nat
  height : Nat
  teams : List String
  move_distance : Nat
  agents : List BattleAgent
  schedule : List Nat
  grid : Coord → List Nat

instance : Inhabited BattleModel :=
  ⟨{ num_agents := 0, width := 0, height := 0, teams := [], move_distance := 0,
     agents := [], schedule := [], grid := fun _ => [] }⟩

/-- One raw draw from the abstract random stream `g` at cursor `k`, mapped
into `[a, b]` (python `random.randint(a, b)` with `a ≤ b`). -/
def randint (g : Nat → Nat) (k a b : Nat) : Nat :=
  a + g k % (b - a + 1)

/-- Python `random.choice`: index a non-empty sequence; `none` mirrors the
`IndexError` raised on an empty sequence. -/
def random_choice {α : Type} (g : Nat → Nat) (k : Nat) (l : List α) : Option α :=
  l[g k % l.length]?

/-- Mesa `Grid.torus_adj`: wrap a coordinate onto the torus. -/
def torus_adj (w h : Nat) (c : Coord) : Coord :=
  (c.1 % w, c.2 % h)

/-- All cells of the `w × h` grid, row-major. -/
def all_cells (w h : Nat) : List Coord :=
  (List.range w).flatMap fun x => (List.range h).map fun y => (x, y)

/-- Toroidal distance along one axis of length `w` (minimum of the two ways
around). -/
def axis_dist (w a b : Nat) : Nat :=
  min ((a + w - b) % w) ((b + w - a) % w)

/-- Toroidal Chebyshev distance between two cells. -/
def torus_chebyshev (w h : Nat) (p q : Coord) : Nat :=
  max (axis_dist w p.1 q.1) (axis_dist h p.2 q.2)

/-- Mesa `MultiGrid.get_neighborhood(pos, moore=True, include_center=False,
radius)` on a torus: the cells at toroidal Chebyshev distance in `[1, radius]`
from `pos`. -/
def get_neighborhood (w h : Nat) (p : Coord) (radius : Nat) : List Coord :=
  (all_cells w h).filter fun c =>
    (c != p) && decide (torus_chebyshev w h p c ≤ radius)

/-- Mesa `MultiGrid.place_agent(agent, pos)`: append the agent to the cell and
set its `pos`, unless it is already placed in that very cell. -/
def place_agent (m : BattleModel) (i : Nat) (c : Coord) : BattleModel :=
  match m.agents[i]? with
  | none => m
  | some a =>
    if a.pos = none ∨ i ∉ m.grid c then
      { m with grid := fun c2 => if c2 = c then m.grid c2 ++ [i] else m.grid c2,
               agents := m.agents.set i { a with pos := some c } }
    else m

/-- Mesa `Grid.remove_agent(agent)`: delete the agent's entry from the cell it
occupies and clear `pos` (the source guards every call with `if agent.pos:`,
so the unplaced branch is never exercised). -/
def remove_agent (m : BattleModel) (i : Nat) : BattleModel :=
  match m.agents[i]? with
  | none => m
  | some a =>
    match a.pos with
    | none => m
    | some c =>
      { m with grid := fun c2 => if c2 = c then (m.grid c2).erase i else m.grid c2,
               agents := m.agents.set i { a with pos := none } }

/-- Mesa `Grid.move_agent(agent, pos)`: torus-normalise the target, then
remove and re-place. -/
def move_agent (m : BattleModel) (i : Nat) (c : Coord) : BattleModel :=
  place_agent (remove_agent m i) i (torus_adj m.width m.height c)

/-- Mesa `BaseScheduler.remove(agent)`: drop the id from the schedule. -/
def schedule_remove (m : BattleModel) (i : Nat) : BattleModel :=
  { m with schedule := m.schedule.erase i }

/-- `self.strength += 1` / `other.strength += 1` in `BattleAgent.step`. -/
def bump_strength (m : BattleModel) (i : Nat) : BattleModel :=
  match m.agents[i]? with
  | none => m
  | some a => { m with agents := m.agents.set i { a with strength := a.strength + 1 } }

/-- Mesa `grid.get_cell_list_contents([new_position])`: the occupants of the
cell, in cell-list order. -/
def get_cell_list_contents (m : BattleModel) (c : Coord) : List Nat :=
  m.grid c

/-- The combat loop of `BattleAgent.step` (lines 30-43): the mover `i` walks
the cellmate list; for each other agent of a different team, the mover kills
the occupant (remove from grid and schedule, `self.strength += 1`, keep
going), or dies to it (remove self, `other.strength += 1`, `break`), or
nothing happens. -/
def combat (i : Nat) : BattleModel → List Nat → BattleModel
  | m, [] => m
  | m, j :: rest =>
    match m.agents[i]?, m.agents[j]? with
    | some a, some o =>
      if j ≠ i ∧ o.team ≠ a.team then
        if o.health < a.strength then
          let m1 := if o.pos ≠ none then schedule_remove (remove_agent m j) j else m
          combat i (bump_strength m1 i) rest
        else if a.health < o.strength then
          let m2 := if a.pos ≠ none then schedule_remove (remove_agent m i) i else m
          bump_strength m2 j
        else
          combat i m rest
      else
        combat i m rest
    | _, _ => combat i m rest

/-- The movement candidates `BattleAgent.step` computes: the neighborhood of
`(self.x, self.y)` -- the construction-time coordinates, since nothing ever
reassigns `x`/`y` -- with the agent's `move_distance` as radius. -/
def possible_moves_of (m : BattleModel) (a : BattleAgent) : List Coord :=
  get_neighborhood m.width m.height (a.x, a.y) a.move_distance

/-- Method `BattleAgent.step`: compute the movement candidates; if any exist,
pick one with `self.random.choice`, move there, and resolve combat against the
cellmates of the new position.  Returns the updated model and RNG cursor. -/
def agent_step (g : Nat → Nat) (m : BattleModel) (i : Nat) (k : Nat) :
    BattleModel × Nat :=
  match m.agents[i]? with
  | none => (m, k)
  | some a =>
    let possible_moves := possible_moves_of m a
    if possible_moves.isEmpty then (m, k)
    else
      let new_position := possible_moves.getD (g k % possible_moves.length) (0, 0)
      let m1 := move_agent m i new_position
      let cellmates := get_cell_list_contents m1 new_position
      (combat i m1 cellmates, k + 1)

/-- Mesa `SimultaneousActivation.step` as this program exercises it: snapshot
the key list, then run each still-scheduled agent's `step` in order (the
`advance` phase is the inherited no-op). -/
def schedule_step (g : Nat → Nat) (m : BattleModel) (k : Nat) :
    BattleModel × Nat :=
  m.schedule.foldl
    (fun mk j => if j ∈ mk.1.schedule then agent_step g mk.1 j mk.2 else mk)
    (m, k)

/-- Method `BattleModel.step`: advance the model by one tick. -/
def model_step (g : Nat → Nat) (m : BattleModel) (k : Nat) : BattleModel × Nat :=
  schedule_step g m k

/-- Repeated `step()` calls, threading the RNG cursor. -/
def run_steps (g : Nat → Nat) : Nat → BattleModel → Nat → BattleModel × Nat
  | 0, m, k => (m, k)
  | n + 1, m, k =>
    let mk := model_step g m k
    run_steps g n mk.1 mk.2

/-- Modelled from the spec: `BattleAgent.__init__` calls `self.random_pos()`,
which is defined nowhere in the repository (nor in mesa).  The spec's
lifecycle section assigns each agent "a random starting position", so the
missing method is modelled as a uniform random valid coordinate: one
`randint 0 (width-1)` draw for `x` and one `randint 0 (height-1)` draw for
`y`. -/
def random_pos (g : Nat → Nat) (k w h : Nat) : Coord :=
  (randint g k 0 (w - 1), randint g (k + 1) 0 (h - 1))

/-- One iteration of the agent-creation loop in `BattleModel.__init__`
(lines 56-62) together with `BattleAgent.__init__` (lines 10-17): draw team,
strength, health and starting position, place the agent (once from
`BattleAgent.__init__`, once more -- a no-op -- from the model), and add it to
the schedule.  `random.choice` on an empty roster raises, modelled as
`Except.error`. -/
def create_agent (g : Nat → Nat) (m : BattleModel) (k : Nat) :
    Except String (BattleModel × Nat) :=
  let i := m.agents.length
  match random_choice g k m.teams with
  | none => .error "IndexError: cannot choose from an empty sequence"
  | some team =>
    let strength := randint g (k + 1) 1 10
    let health := randint g (k + 2) 5 20
    let xy := random_pos g (k + 3) m.width m.height
    let a : BattleAgent :=
      { unique_id := i, team := team, strength := strength, health := health,
        move_distance := m.move_distance, x := xy.1, y := xy.2, pos := none }
    let m1 := { m with agents := m.agents ++ [a] }
    let m2 := place_agent m1 i (a.x, a.y)
    let m3 := place_agent m2 i (a.x, a.y)
    .ok ({ m3 with schedule := m3.schedule ++ [i] }, k + 5)

/-- The agent-creation loop of `BattleModel.__init__`, `n` agents left to
create. -/
def init_loop (g : Nat → Nat) : Nat → BattleModel → Nat →
    Except String (BattleModel × Nat)
  | 0, m, k => .ok (m, k)
  | n + 1, m, k => do
    let mk ← create_agent g m k
    init_loop g n mk.1 mk.2

/-- Constructor `BattleModel.__init__(N, width, height, teams, move_distance)`: record the
parameters, start with an empty toroidal grid and scheduler, and create the
`N` agents.  No configuration validation is performed by the source. -/
def BattleModel.init (g : Nat → Nat) (N width height : Nat) (teams : List String)
    (move_distance : Nat) (k : Nat) : Except String (BattleModel × Nat) :=
  init_loop g N
    { num_agents := N, width := width, height := height, teams := teams,
      move_distance := move_distance, agents := [], schedule := [],
      grid := fun _ => [] } k

/-- The distinct team labels among live agents
(`set(agent.team for agent in self.schedule.agents)`). -/
def live_teams (m : BattleModel) : List String :=
  (m.schedule.filterMap fun i => (m.agents[i]?).map fun a => a.team).dedup

/-- Method `BattleModel.count_teams`: the number of remaining teams. -/
def count_teams (m : BattleModel) : Nat :=
  (live_teams m).length

/-- Method `BattleModel.get_agents_positions`: `(agent.x, agent.y, agent.team)`
for every scheduled agent, in schedule order.  This is the model's snapshot. -/
def get_agents_positions (m : BattleModel) : List (Nat × Nat × String) :=
  m.schedule.filterMap fun i => (m.agents[i]?).map fun a => (a.x, a.y, a.team)

/-- Modelled from the spec: the source defines no `winning_team`; §4.2 asks
for "when `live_team_count() == 1`, returns that team's label; fails with
`NoUniqueWinner` otherwise".  `live_team_count` is `count_teams` in the
source. -/
def winning_team (m : BattleModel) : Except String String :=
  if count_teams m = 1 then
    match live_teams m with
    | t :: _ => .ok t
    | [] => .error "NoUniqueWinner"
  else .error "NoUniqueWinner"

/-- Unwrap a successful construction (used to name concrete states in
theorems). -/
def extract_model (e : Except String (BattleModel × Nat)) : BattleModel :=
  match e with
  | .ok mk => mk.1
  | .error _ => default

/-! ### Concrete random streams and runs used in closed statements -/

/-- The all-zero random stream. -/
def gZero : Nat → Nat := fun _ => 0

/-- The identity random stream. -/
def gId : Nat → Nat := fun n => n

/-- One Red agent on a 5×5 torus, `move_distance = 1`, all-zero stream: the
agent is created at `(0, 0)` with strength 1 and health 5. -/
def demo0 : BattleModel := extract_model (BattleModel.init gZero 1 5 5 ["Red"] 1 0)

/-- The state of `demo0` after one `step()`: the agent has moved to `(0, 1)`
while its `x`, `y` fields still read `(0, 0)`. -/
def demo1 : BattleModel := (model_step gZero demo0 5).1

/-- The single agent of `demo1`. -/
def demo1_agent : BattleAgent :=
  { unique_id := 0, team := "Red", strength := 1, health := 5,
    move_distance := 1, x := 0, y := 0, pos := some (0, 1) }

/-- A model constructed with zero agents (empty schedule, zero live teams). -/
def demo_empty : BattleModel := extract_model (BattleModel.init gId 0 5 5 ["Red"] 1 0)

/-- First of two engines built back to back with identical parameters in one
process: its construction consumes stream positions 0-4 of the global
generator. -/
def engineA : BattleModel := extract_model (BattleModel.init gId 1 5 5 ["Red", "Blue"] 1 0)

/-- Second engine, identical parameters, constructed next in the same
process: its draws start at stream position 5, where the first construction
left the global generator. -/
def engineB : BattleModel := extract_model (BattleModel.init gId 1 5 5 ["Red", "Blue"] 1 5)

/-- Two agents on a 5×5 torus under the identity stream: agent 0 is Red with
strength 2, health 7; agent 1 is Blue with strength 7, health 12; both start
at `(3, 4)`. -/
def demo_pair : BattleModel := extract_model (BattleModel.init gId 2 5 5 ["Red", "Blue"] 1 0)

/-! ### Specification-side predicates -/

/-- What claim C1 asks of each created agent: team drawn from the roster,
strength in the configured `[1, 10]`, health in the configured `[5, 20]`, and
a starting position that is a valid grid coordinate (which the agent also
occupies). -/
def AgentWellFormed (teams : List String) (w h : Nat) (a : BattleAgent) : Prop :=
  a.team ∈ teams ∧ 1 ≤ a.strength ∧ a.strength ≤ 10 ∧
  5 ≤ a.health ∧ a.health ≤ 20 ∧ a.x < w ∧ a.y < h ∧ a.pos = some (a.x, a.y)

/-- The fields of an agent that a tick may never damage: strength may only
grow, and health, team, id, move distance and the (never reassigned) `x`, `y`
coordinates are untouched. -/
def agent_core_preserved (a a2 : BattleAgent) : Prop :=
  a.strength ≤ a2.strength ∧ a2.health = a.health ∧ a2.team = a.team ∧
  a2.unique_id = a.unique_id ∧ a2.move_distance = a.move_distance ∧
  a2.x = a.x ∧ a2.y = a.y

/-- Relation between a model state and a later one: the agent arena keeps
every id, and each agent's core fields evolve as `agent_core_preserved`
allows. -/
def Evolves (m m2 : BattleModel) : Prop :=
  ∀ (i : Nat) (a : BattleAgent), m.agents[i]? = some a →
    ∃ a2, m2.agents[i]? = some a2 ∧ agent_core_preserved a a2

/-- The occupancy coherence invariant tying arena, schedule and grid:
scheduled agents exist and are placed; placed agents are scheduled; every
grid entry points to an agent placed exactly there; a placed agent appears
exactly once in its cell; the schedule has no duplicate ids. -/
def Inv (m : BattleModel) : Prop :=
  (∀ i, i ∈ m.schedule → ∃ a, m.agents[i]? = some a ∧ a.pos.isSome) ∧
  (∀ (i : Nat) (a : BattleAgent), m.agents[i]? = some a → a.pos.isSome →
    i ∈ m.schedule) ∧
  (∀ (c : Coord) (i : Nat), i ∈ m.grid c →
    ∃ a, m.agents[i]? = some a ∧ a.pos = some c) ∧
  (∀ (i : Nat) (a : BattleAgent) (c : Coord), m.agents[i]? = some a →
    a.pos = some c → (m.grid c).count i = 1) ∧
  m.schedule.Nodup

/-- What claim C5 asserts of a reachable state: every live agent is indexed
by the grid at its own position, removed agents appear in no cell, and no
cell holds a stale entry for an agent positioned elsewhere. -/
def OccupancyConsistent (m : BattleModel) : Prop :=
  (∀ i, i ∈ m.schedule →
    ∃ a c, m.agents[i]? = some a ∧ a.pos = some c ∧ i ∈ m.grid c) ∧
  (∀ (i : Nat), i ∉ m.schedule → ∀ c, i ∉ m.grid c) ∧
  (∀ (i : Nat) (a : BattleAgent) (c c2 : Coord), m.agents[i]? = some a →
    a.pos = some c → i ∈ m.grid c2 → c2 = c)

/-- The states reachable by the program: a freshly constructed model, or any
reachable model advanced by one `step()` at an arbitrary RNG cursor. -/
inductive Reachable (g : Nat → Nat) : BattleModel → Prop
  | boot (N w h : Nat) (teams : List String) (md k k2 : Nat) (m : BattleModel)
      (h0 : BattleModel.init g N w h teams md k = .ok (m, k2)) : Reachable g m
  | tick (m : BattleModel) (k : Nat) (h0 : Reachable g m) :
      Reachable g (model_step g m k).1

/-- What claim C4 asserts of one combat iteration of mover `i` against the
occupant `j` at the head of the cellmate list (`a`, `o` are their current
records): win removes the occupant from schedule and grid, bumps the mover's
strength and continues down the list; loss removes the mover, bumps the
occupant and stops without looking at the rest; a draw changes nothing and
moves on. -/
def CombatClaim (m : BattleModel) (i j : Nat) (a o : BattleAgent)
    (rest : List Nat) : Prop :=
  (o.health < a.strength →
    ∃ m2, combat i m (j :: rest) = combat i m2 rest ∧
      j ∉ m2.schedule ∧ (∀ c, j ∉ m2.grid c) ∧
      m2.schedule = m.schedule.erase j ∧
      m2.agents[i]? = some { a with strength := a.strength + 1 } ∧
      (∀ q, q ≠ i → q ≠ j → m2.agents[q]? = m.agents[q]?)) ∧
  (¬ o.health < a.strength → a.health < o.strength →
    (∀ rest2, combat i m (j :: rest2) = combat i m (j :: rest)) ∧
    i ∉ (combat i m (j :: rest)).schedule ∧
    (∀ c, i ∉ (combat i m (j :: rest)).grid c) ∧
    (combat i m (j :: rest)).schedule = m.schedule.erase i ∧
    (combat i m (j :: rest)).agents[j]? = some { o with strength := o.strength + 1 }) ∧
  (¬ o.health < a.strength → ¬ a.health < o.strength →
    combat i m (j :: rest) = combat i m rest)

/-! ### Theorems -/

/-! #### Helper lemmas -/

theorem set_append_length {α : Type} (l : List α) (a b : α) :
    (l ++ [a]).set l.length b = l ++ [b] := by
  induction l with
  | nil => rfl
  | cons x xs ih => simp [List.set, ih]

theorem randint_lower (g : Nat → Nat) (k a b : Nat) : a ≤ randint g k a b :=
  Nat.le_add_right _ _

theorem randint_upper (g : Nat → Nat) (k a b : Nat) (h : a ≤ b) :
    randint g k a b ≤ b := by
  have hm : g k % (b - a + 1) < b - a + 1 := Nat.mod_lt _ (Nat.succ_pos _)
  unfold randint
  omega

/-- Evaluating one iteration of the agent-creation loop on a non-empty
roster: the returned model appends one fully initialised agent (placed at its
starting coordinate, also registered in the grid and the schedule) and the
cursor advances by the five construction draws. -/
theorem create_agent_ok (g : Nat → Nat) (m : BattleModel) (k : Nat)
    (ht : m.teams ≠ []) :
    ∃ m2 a2, create_agent g m k = .ok (m2, k + 5) ∧
      m2.teams = m.teams ∧ m2.width = m.width ∧ m2.height = m.height ∧
      m2.move_distance = m.move_distance ∧ m2.num_agents = m.num_agents ∧
      m2.agents = m.agents ++ [a2] ∧
      m2.schedule = m.schedule ++ [m.agents.length] ∧
      m2.grid = (fun c2 => if c2 = ((a2.x, a2.y) : Coord)
        then m.grid c2 ++ [m.agents.length] else m.grid c2) ∧
      a2.unique_id = m.agents.length ∧ a2.team ∈ m.teams ∧
      a2.strength = randint g (k + 1) 1 10 ∧
      a2.health = randint g (k + 2) 5 20 ∧
      a2.move_distance = m.move_distance ∧
      a2.x = randint g (k + 3) 0 (m.width - 1) ∧
      a2.y = randint g (k + 4) 0 (m.height - 1) ∧
      a2.pos = some (a2.x, a2.y) := by
  have hlen : 0 < m.teams.length := List.length_pos.mpr ht
  have hidx : g k % m.teams.length < m.teams.length := Nat.mod_lt _ hlen
  have hchoice : random_choice g k m.teams
      = some m.teams[g k % m.teams.length] := by
    simp [random_choice, List.getElem?_eq_getElem hidx]
  simp only [create_agent, hchoice, random_pos, place_agent, set_append_length]
  simp only [List.getElem?_concat_length, true_or, if_true]
  simp only [List.mem_append, List.mem_singleton, or_true, not_true, or_self,
    if_false, reduceCtorEq, false_or, not_true_eq_false, if_neg]
  exact ⟨_, _, rfl, rfl, rfl, rfl, rfl, rfl, rfl, rfl, rfl, rfl,
    List.getElem_mem _, rfl, rfl, rfl, rfl, rfl, rfl⟩

/-- The agent-creation loop keeps every created agent well formed and keeps
the schedule equal to `range` of the arena size. -/
theorem init_loop_ok (g : Nat → Nat) (n : Nat) :
    ∀ (m : BattleModel) (k : Nat), m.teams ≠ [] →
      0 < m.width → 0 < m.height →
      (∀ a ∈ m.agents, AgentWellFormed m.teams m.width m.height a) →
      m.schedule = List.range m.agents.length →
      ∃ m2 k2, init_loop g n m k = .ok (m2, k2) ∧
        m2.teams = m.teams ∧ m2.width = m.width ∧ m2.height = m.height ∧
        m2.agents.length = m.agents.length + n ∧
        m2.schedule = List.range m2.agents.length ∧
        ∀ a ∈ m2.agents, AgentWellFormed m.teams m.width m.height a := by
  induction n with
  | zero =>
    intro m k ht hw hh hwf hsch
    exact ⟨m, k, rfl, rfl, rfl, rfl, rfl, by simpa using hsch, hwf⟩
  | succ n ih =>
    intro m k ht hw hh hwf hsch
    obtain ⟨m2, a2, hca, hteams, hwid, hhei, hmd, hnum, hagents, hsch2, hgrid,
      huid, hteam, hstr, hhp, hmd2, hx, hy, hpos⟩ := create_agent_ok g m k ht
    have ha2wf : AgentWellFormed m.teams m.width m.height a2 := by
      refine ⟨hteam, ?_, ?_, ?_, ?_, ?_, ?_, hpos⟩
      · rw [hstr]; exact randint_lower g (k + 1) 1 10
      · rw [hstr]; exact randint_upper g (k + 1) 1 10 (by omega)
      · rw [hhp]; exact randint_lower g (k + 2) 5 20
      · rw [hhp]; exact randint_upper g (k + 2) 5 20 (by omega)
      · have := randint_upper g (k + 3) 0 (m.width - 1) (Nat.zero_le _)
        rw [hx]; omega
      · have := randint_upper g (k + 4) 0 (m.height - 1) (Nat.zero_le _)
        rw [hy]; omega
    have hwf2 : ∀ a ∈ m2.agents, AgentWellFormed m2.teams m2.width m2.height a := by
      rw [hagents, hteams, hwid, hhei]
      intro a ha
      rcases List.mem_append.mp ha with h1 | h1
      · exact hwf a h1
      · rw [List.mem_singleton.mp h1]; exact ha2wf
    have hsch2' : m2.schedule = List.range m2.agents.length := by
      rw [hsch2, hagents, hsch, List.length_append]
      simp [List.range_succ]
    obtain ⟨m3, k3, hloop, h3teams, h3w, h3h, h3len, h3sch, h3wf⟩ :=
      ih m2 (k + 5) (hteams ▸ ht) (hwid ▸ hw) (hhei ▸ hh) hwf2 hsch2'
    refine ⟨m3, k3, ?_, by rw [h3teams, hteams], by rw [h3w, hwid],
      by rw [h3h, hhei], ?_, h3sch, ?_⟩
    · simp only [init_loop, hca]
      exact hloop
    · rw [h3len, hagents, List.length_append]
      simp; omega
    · intro a ha
      have := h3wf a ha
      rwa [hteams, hwid, hhei] at this

theorem lt_length_of_getElem?_some {α : Type} (l : List α) (i : Nat) (a : α)
    (h : l[i]? = some a) : i < l.length := by
  by_contra hc
  rw [List.getElem?_eq_none (Nat.le_of_not_lt hc)] at h
  cases h

theorem agent_core_preserved_refl (a : BattleAgent) : agent_core_preserved a a :=
  ⟨Nat.le_refl _, rfl, rfl, rfl, rfl, rfl, rfl⟩

theorem agent_core_preserved_trans (a b c : BattleAgent)
    (h1 : agent_core_preserved a b) (h2 : agent_core_preserved b c) :
    agent_core_preserved a c := by
  obtain ⟨s1, h1, t1, u1, m1, x1, y1⟩ := h1
  obtain ⟨s2, h2, t2, u2, m2, x2, y2⟩ := h2
  exact ⟨Nat.le_trans s1 s2, h2.trans h1, t2.trans t1, u2.trans u1,
    m2.trans m1, x2.trans x1, y2.trans y1⟩

theorem evolves_refl (m : BattleModel) : Evolves m m :=
  fun _ a ha => ⟨a, ha, agent_core_preserved_refl a⟩

theorem evolves_trans (m1 m2 m3 : BattleModel)
    (h1 : Evolves m1 m2) (h2 : Evolves m2 m3) : Evolves m1 m3 := by
  intro i a ha
  obtain ⟨b, hb, hab⟩ := h1 i a ha
  obtain ⟨c, hc, hbc⟩ := h2 i b hb
  exact ⟨c, hc, agent_core_preserved_trans a b c hab hbc⟩

theorem evolves_of_set (m m2 : BattleModel) (i : Nat) (a b : BattleAgent)
    (ha : m.agents[i]? = some a) (hcp : agent_core_preserved a b)
    (h2 : m2.agents = m.agents.set i b) : Evolves m m2 := by
  intro j aj hj
  by_cases hji : j = i
  · subst hji
    rw [ha] at hj
    cases hj
    refine ⟨b, ?_, hcp⟩
    rw [h2]
    exact List.getElem?_set_eq_of_lt b (lt_length_of_getElem?_some _ _ _ ha)
  · refine ⟨aj, ?_, agent_core_preserved_refl aj⟩
    rw [h2, List.getElem?_set_ne (fun h => hji h.symm)]
    exact hj

theorem evolves_of_eq_agents (m m2 : BattleModel)
    (h2 : m2.agents = m.agents) : Evolves m m2 := by
  intro j aj hj
  exact ⟨aj, by rw [h2]; exact hj, agent_core_preserved_refl aj⟩

theorem evolves_remove_agent (m : BattleModel) (i : Nat) :
    Evolves m (remove_agent m i) := by
  rcases h : m.agents[i]? with _ | a
  · simp only [remove_agent, h]
    exact evolves_refl m
  · rcases hp : a.pos with _ | c
    · simp only [remove_agent, h, hp]
      exact evolves_refl m
    · simp only [remove_agent, h, hp]
      exact evolves_of_set m _ i a { a with pos := none } h
        ⟨Nat.le_refl _, rfl, rfl, rfl, rfl, rfl, rfl⟩ rfl

theorem evolves_place_agent (m : BattleModel) (i : Nat) (c : Coord) :
    Evolves m (place_agent m i c) := by
  rcases h : m.agents[i]? with _ | a
  · simp only [place_agent, h]
    exact evolves_refl m
  · simp only [place_agent, h]
    by_cases hc : a.pos = none ∨ i ∉ m.grid c
    · rw [if_pos hc]
      exact evolves_of_set m _ i a { a with pos := some c } h
        ⟨Nat.le_refl _, rfl, rfl, rfl, rfl, rfl, rfl⟩ rfl
    · rw [if_neg hc]
      exact evolves_refl m

theorem evolves_move_agent (m : BattleModel) (i : Nat) (c : Coord) :
    Evolves m (move_agent m i c) :=
  evolves_trans _ _ _ (evolves_remove_agent m i)
    (evolves_place_agent (remove_agent m i) i _)

theorem evolves_schedule_remove (m : BattleModel) (i : Nat) :
    Evolves m (schedule_remove m i) :=
  evolves_of_eq_agents m _ rfl

theorem evolves_bump_strength (m : BattleModel) (i : Nat) :
    Evolves m (bump_strength m i) := by
  rcases h : m.agents[i]? with _ | a
  · simp only [bump_strength, h]
    exact evolves_refl m
  · simp only [bump_strength, h]
    exact evolves_of_set m _ i a { a with strength := a.strength + 1 } h
      ⟨Nat.le_succ _, rfl, rfl, rfl, rfl, rfl, rfl⟩ rfl

theorem evolves_combat (i : Nat) (os : List Nat) :
    ∀ (m : BattleModel), Evolves m (combat i m os) := by
  induction os with
  | nil => intro m; exact evolves_refl m
  | cons j rest ih =>
    intro m
    rcases h1 : m.agents[i]? with _ | a
    · rcases h2 : m.agents[j]? with _ | o
      · simp only [combat, h1, h2]
        exact ih m
      · simp only [combat, h1, h2]
        exact ih m
    · rcases h2 : m.agents[j]? with _ | o
      · simp only [combat, h1, h2]
        exact ih m
      · simp only [combat, h1, h2]
        by_cases hne : j ≠ i ∧ o.team ≠ a.team
        · rw [if_pos hne]
          by_cases hwin : o.health < a.strength
          · rw [if_pos hwin]
            by_cases hjp : o.pos ≠ none
            · rw [if_pos hjp]
              refine evolves_trans _ _ _ ?_ (ih _)
              refine evolves_trans _ _ _ ?_ (evolves_bump_strength _ i)
              exact evolves_trans _ _ _ (evolves_remove_agent m j)
                (evolves_schedule_remove _ j)
            · rw [if_neg hjp]
              exact evolves_trans _ _ _ (evolves_bump_strength m i) (ih _)
          · rw [if_neg hwin]
            by_cases hlose : a.health < o.strength
            · rw [if_pos hlose]
              by_cases hip : a.pos ≠ none
              · rw [if_pos hip]
                refine evolves_trans _ _ _ ?_ (evolves_bump_strength _ j)
                exact evolves_trans _ _ _ (evolves_remove_agent m i)
                  (evolves_schedule_remove _ i)
              · rw [if_neg hip]
                exact evolves_bump_strength m j
            · rw [if_neg hlose]
              exact ih m
        · rw [if_neg hne]
          exact ih m

theorem evolves_agent_step (g : Nat → Nat) (m : BattleModel) (i k : Nat) :
    Evolves m (agent_step g m i k).1 := by
  rcases h : m.agents[i]? with _ | a
  · simp only [agent_step, h]
    exact evolves_refl m
  · simp only [agent_step, h]
    by_cases he : (possible_moves_of m a).isEmpty
    · rw [if_pos he]
      exact evolves_refl m
    · rw [if_neg he]
      exact evolves_trans _ _ _ (evolves_move_agent m i _) (evolves_combat i _ _)

theorem evolves_foldl (g : Nat → Nat) (l : List Nat) :
    ∀ (mk : BattleModel × Nat),
      Evolves mk.1 (l.foldl
        (fun mk j => if j ∈ mk.1.schedule then agent_step g mk.1 j mk.2 else mk)
        mk).1 := by
  induction l with
  | nil => intro mk; exact evolves_refl mk.1
  | cons j rest ih =>
    intro mk
    refine evolves_trans _ _ _ ?_ (ih _)
    show Evolves mk.1 (if j ∈ mk.1.schedule then agent_step g mk.1 j mk.2 else mk).1
    by_cases hj : j ∈ mk.1.schedule
    · rw [if_pos hj]
      exact evolves_agent_step g mk.1 j mk.2
    · rw [if_neg hj]
      exact evolves_refl mk.1

theorem evolves_model_step (g : Nat → Nat) (m : BattleModel) (k : Nat) :
    Evolves m (model_step g m k).1 :=
  evolves_foldl g m.schedule (m, k)

theorem evolves_run_steps (g : Nat → Nat) (n : Nat) :
    ∀ (m : BattleModel) (k : Nat), Evolves m (run_steps g n m k).1 := by
  induction n with
  | zero => intro m k; exact evolves_refl m
  | succ n ih =>
    intro m k
    exact evolves_trans _ _ _ (evolves_model_step g m k) (ih _ _)

/-! #### Claim theorems -/

/-- Claim C1: constructing an engine with agent count `N`, a non-empty team
roster and positive grid dimensions succeeds and creates exactly `N` agents
in bulk (ids `0 .. N-1`, all scheduled), each with a team drawn from the
roster, strength in the configured `[1, 10]`, health in the configured
`[5, 20]`, and a starting position that is a valid grid coordinate.  The
starting-position draw is modelled from the spec because `random_pos` is
undefined in the source. -/
theorem init_creates_n_wellformed_agents (g : Nat → Nat) (N w h : Nat)
    (teams : List String) (md k : Nat)
    (ht : teams ≠ []) (hw : 0 < w) (hh : 0 < h) :
    ∃ m k2, BattleModel.init g N w h teams md k = .ok (m, k2) ∧
      m.agents.length = N ∧ m.schedule = List.range N ∧
      ∀ a ∈ m.agents, AgentWellFormed teams w h a := by
  obtain ⟨m2, k2, hloop, hteams, hwid, hhei, hlen, hsch, hwf⟩ :=
    init_loop_ok g N
      { num_agents := N, width := w, height := h, teams := teams,
        move_distance := md, agents := [], schedule := [],
        grid := fun _ => [] } k ht hw hh (by simp) rfl
  refine ⟨m2, k2, hloop, by simpa using hlen, ?_, hwf⟩
  rw [hsch, hlen]
  simp

/-- Witness for C1 at a concrete configuration. -/
theorem init_creates_witness :
    ∃ m k2, BattleModel.init gZero 2 5 5 ["Red", "Blue"] 1 0 = .ok (m, k2) ∧
      m.agents.length = 2 ∧ m.schedule = List.range 2 ∧
      ∀ a ∈ m.agents, AgentWellFormed ["Red", "Blue"] 5 5 a :=
  init_creates_n_wellformed_agents gZero 2 5 5 ["Red", "Blue"] 1 0
    (by decide) (by decide) (by decide)

/-- Claim C2: the movement candidate set is NOT computed from the agent's
current position.  In the concrete run `demo1` (one Red agent on a 5×5 torus,
all-zero stream, one tick taken), the agent currently occupies `(0, 1)`, but
the candidate set `step` would use for the next tick is the neighborhood of
the construction-time coordinates `(0, 0)`, which are never reassigned: the
cell `(0, 2)` lies within Chebyshev distance 1 of the current position yet is
not a candidate.  (The neighborhood geometry itself -- toroidal Chebyshev ball
minus center -- and the move-if-nonempty rule match the claim; the center of
the ball is the stale point.) -/
theorem movement_candidates_use_stale_coords :
    demo1.agents[0]? = some demo1_agent ∧
    demo1_agent.pos = some (0, 1) ∧
    possible_moves_of demo1 demo1_agent = get_neighborhood 5 5 (0, 0) 1 ∧
    (0, 2) ∈ get_neighborhood 5 5 (0, 1) 1 ∧
    (0, 2) ∉ possible_moves_of demo1 demo1_agent := by
  refine ⟨by decide, by decide, by decide, by decide, by decide⟩

/-- Claim C3: `get_agents_positions` (the snapshot) does not report the cell
an agent currently occupies.  In the run `demo1` the only live agent occupies
grid cell `(0, 1)` (its `pos`, and the only cell whose occupant list holds
id 0), but the snapshot reports the stale construction-time `(0, 0)`,
contradicting the method's own docstring "Get a list of current positions". -/
theorem snapshot_reports_stale_position :
    get_agents_positions demo1 = [(0, 0, "Red")] ∧
    demo1.agents[0]? = some demo1_agent ∧
    demo1_agent.pos = some (0, 1) ∧
    0 ∈ demo1.grid (0, 1) ∧ 0 ∉ demo1.grid (0, 0) := by
  refine ⟨by decide, by decide, by decide, by decide, by decide⟩

/-- Claim C6 counterexample: `BattleModel.__init__` accepts no seed and draws
from the process-global generator, so under a single global seed (stream
`gId`) two engines constructed back to back with identical parameters draw
different teams and their tick-0 snapshots already differ.  (The second
conjunct records that engine B's cursor 5 is exactly where engine A's
construction left the global stream.) -/
theorem same_seed_engines_produce_different_snapshots :
    get_agents_positions engineA ≠ get_agents_positions engineB ∧
    (BattleModel.init gId 1 5 5 ["Red", "Blue"] 1 0).map (fun p => p.2) = .ok 5 := by
  refine ⟨by decide, by rfl⟩

/-- Claim C6 amended: the engine's dynamics are deterministic in the random
stream -- two engines constructed with identical parameters from identical
generator states produce identical snapshot sequences at every tick. -/
theorem snapshots_reproducible_from_equal_rng_state (g1 g2 : Nat → Nat)
    (hg : ∀ n, g1 n = g2 n) (N w h : Nat) (teams : List String) (md k t : Nat) :
    (BattleModel.init g1 N w h teams md k).map
        (fun p => get_agents_positions (run_steps g1 t p.1 p.2).1)
      = (BattleModel.init g2 N w h teams md k).map
        (fun p => get_agents_positions (run_steps g2 t p.1 p.2).1) := by
  have h2 : g1 = g2 := funext hg
  rw [h2]

/-- Witness for the amended C6 theorem at a concrete configuration. -/
theorem snapshots_reproducible_witness :
    (BattleModel.init gZero 1 5 5 ["Red"] 1 0).map
        (fun p => get_agents_positions (run_steps gZero 2 p.1 p.2).1)
      = (BattleModel.init gZero 1 5 5 ["Red"] 1 0).map
        (fun p => get_agents_positions (run_steps gZero 2 p.1 p.2).1) :=
  snapshots_reproducible_from_equal_rng_state gZero gZero (fun _ => rfl)
    1 5 5 ["Red"] 1 0 2

/-- Claim C8 counterexample: construction with an empty team roster and
non-positive grid dimensions succeeds when the agent count is 0 -- no
`InvalidConfiguration` failure exists anywhere in the constructor. -/
theorem empty_roster_construction_accepted :
    (BattleModel.init gId 0 0 0 ([] : List String) 1 0).isOk = true := by decide

/-- Claim C8 amended: the constructor validates nothing.  With at least one
agent and an empty roster, the first agent's team draw fails (python
`IndexError` from `random.choice`, not `InvalidConfiguration`) before any
agent is created; with zero agents, any configuration -- empty roster,
non-positive dimensions -- is accepted (the strength/health ranges are
hardcoded non-empty constants, not configuration). -/
theorem init_validation_behavior (g : Nat → Nat) (N w h : Nat)
    (teams : List String) (md k : Nat) :
    (teams = [] → 0 < N →
      BattleModel.init g N w h teams md k
        = .error "IndexError: cannot choose from an empty sequence") ∧
    (N = 0 →
      ∃ m, BattleModel.init g N w h teams md k = .ok (m, k) ∧ m.agents = []) := by
  constructor
  · rintro rfl hN
    match N, hN with
    | n + 1, _ => rfl
  · rintro rfl
    exact ⟨_, rfl, rfl⟩

/-- Claim C9: strength is monotone -- across any number of `step()` calls
from any state, every agent's strength never decreases (combat only ever
increments the winner's strength by 1). -/
theorem strength_monotone_across_ticks (g : Nat → Nat) (n : Nat)
    (m : BattleModel) (k i : Nat) (a : BattleAgent)
    (ha : m.agents[i]? = some a) :
    ∃ a2, (run_steps g n m k).1.agents[i]? = some a2 ∧
      a.strength ≤ a2.strength := by
  obtain ⟨a2, h2, hcp⟩ := evolves_run_steps g n m k i a ha
  exact ⟨a2, h2, hcp.1⟩

/-- Witness for C9: three ticks of the one-agent demo model. -/
theorem strength_monotone_witness :
    ∃ a2, (run_steps gZero 3 demo0 5).1.agents[0]? = some a2 ∧
      1 ≤ a2.strength :=
  strength_monotone_across_ticks gZero 3 demo0 5 0
    { unique_id := 0, team := "Red", strength := 1, health := 5,
      move_distance := 1, x := 0, y := 0, pos := some (0, 0) } (by decide)

/-- Claim C10: health is a frame field -- across any number of `step()`
calls from any state, every agent's health is exactly its value at the start
(no exchange, won or lost, ever writes it). -/
theorem health_never_mutated (g : Nat → Nat) (n : Nat)
    (m : BattleModel) (k i : Nat) (a : BattleAgent)
    (ha : m.agents[i]? = some a) :
    ∃ a2, (run_steps g n m k).1.agents[i]? = some a2 ∧
      a2.health = a.health := by
  obtain ⟨a2, h2, hcp⟩ := evolves_run_steps g n m k i a ha
  exact ⟨a2, h2, hcp.2.1⟩

/-- Witness for C10: two ticks of the one-agent demo model. -/
theorem health_never_mutated_witness :
    ∃ a2, (run_steps gZero 2 demo0 5).1.agents[0]? = some a2 ∧
      a2.health = 5 :=
  health_never_mutated gZero 2 demo0 5 0
    { unique_id := 0, team := "Red", strength := 1, health := 5,
      move_distance := 1, x := 0, y := 0, pos := some (0, 0) } (by decide)

/-- Claim C7: when exactly one team remains among live agents,
`winning_team` returns that unique team's label -- the team of every live
agent; otherwise it fails with `NoUniqueWinner`.  (`winning_team` is
modelled from the spec; `count_teams` is the source's `live_team_count`.) -/
theorem winning_team_spec (m : BattleModel) :
    (count_teams m = 1 →
      ∃ t, winning_team m = .ok t ∧
        ∀ (i : Nat) (a : BattleAgent), i ∈ m.schedule →
          m.agents[i]? = some a → a.team = t) ∧
    (count_teams m ≠ 1 → winning_team m = .error "NoUniqueWinner") := by
  constructor
  · intro h1
    obtain ⟨t, ht⟩ := List.length_eq_one.mp (by simpa [count_teams] using h1)
    refine ⟨t, ?_, ?_⟩
    · unfold winning_team
      rw [if_pos h1, ht]
    · intro i a hi ha
      have hmem : a.team ∈ live_teams m := by
        unfold live_teams
        apply List.mem_dedup.mpr
        exact List.mem_filterMap.mpr ⟨i, hi, by rw [ha]; rfl⟩
      rw [ht] at hmem
      simpa using hmem
  · intro h1
    unfold winning_team
    rw [if_neg h1]

/-- Witness for C7: the one-team demo model has a winner (first branch); the
zero-agent model has zero live teams and fails (second branch). -/
theorem winning_team_witness :
    (∃ t, winning_team demo0 = .ok t ∧
      ∀ (i : Nat) (a : BattleAgent), i ∈ demo0.schedule →
        demo0.agents[i]? = some a → a.team = t) ∧
    winning_team demo_empty = .error "NoUniqueWinner" :=
  ⟨(winning_team_spec demo0).1 (by decide),
   (winning_team_spec demo_empty).2 (by decide)⟩

/-- Witness for the amended C8 theorem: both branches at concrete inputs. -/
theorem init_validation_witness :
    BattleModel.init gId 3 5 5 ([] : List String) 1 0
      = .error "IndexError: cannot choose from an empty sequence" ∧
    ∃ m, BattleModel.init gId 0 0 0 ([] : List String) 1 0 = .ok (m, 0) ∧
      m.agents = [] :=
  ⟨(init_validation_behavior gId 3 5 5 [] 1 0).1 rfl (by decide),
   (init_validation_behavior gId 0 0 0 [] 1 0).2 rfl⟩



theorem remove_eq (m : BattleModel) (j : Nat) (o : BattleAgent) (c : Coord)
    (hj : m.agents[j]? = some o) (hjpos : o.pos = some c) :
    remove_agent m j =
      { m with grid := fun c2 => if c2 = c then (m.grid c2).erase j else m.grid c2,
               agents := m.agents.set j { o with pos := none } } := by
  simp only [remove_agent, hj, hjpos]

theorem kill_eq (m : BattleModel) (j : Nat) (o : BattleAgent) (c : Coord)
    (hj : m.agents[j]? = some o) (hjpos : o.pos = some c) :
    schedule_remove (remove_agent m j) j =
      { m with grid := fun c2 => if c2 = c then (m.grid c2).erase j else m.grid c2,
               agents := m.agents.set j { o with pos := none },
               schedule := m.schedule.erase j } := by
  rw [schedule_remove, remove_eq m j o c hj hjpos]

theorem grid_count_zero (m : BattleModel) (hInv : Inv m) (i : Nat) (c2 : Coord)
    (h : ∀ a, m.agents[i]? = some a → a.pos ≠ some c2) :
    (m.grid c2).count i = 0 := by
  rw [List.count_eq_zero]
  intro hmem
  obtain ⟨a, ha, hpos⟩ := hInv.2.2.1 c2 i hmem
  exact h a ha hpos

theorem inv_kill (m : BattleModel) (j : Nat) (o : BattleAgent) (c : Coord)
    (hInv : Inv m) (hj : m.agents[j]? = some o) (hjpos : o.pos = some c) :
    Inv (schedule_remove (remove_agent m j) j) ∧
    j ∉ (schedule_remove (remove_agent m j) j).schedule ∧
    (∀ c2, j ∉ (schedule_remove (remove_agent m j) j).grid c2) ∧
    (schedule_remove (remove_agent m j) j).schedule = m.schedule.erase j ∧
    (schedule_remove (remove_agent m j) j).agents[j]? = some { o with pos := none } ∧
    (∀ q, q ≠ j → (schedule_remove (remove_agent m j) j).agents[q]? = m.agents[q]?) := by
  obtain ⟨hA, hB, hC, hD, hE⟩ := hInv
  have hjlen : j < m.agents.length := lt_length_of_getElem?_some _ _ _ hj
  rw [kill_eq m j o c hj hjpos]
  have hcnt : (m.grid c).count j = 1 := hD j o c hj hjpos
  have hgrid_mem : ∀ (c2 : Coord) (q : Nat), q ≠ j →
      (q ∈ (if c2 = c then (m.grid c2).erase j else m.grid c2) ↔ q ∈ m.grid c2) := by
    intro c2 q hq
    by_cases hc2 : c2 = c
    · rw [if_pos hc2, List.mem_erase_of_ne hq]
    · rw [if_neg hc2]
  have hgrid_cnt : ∀ (c2 : Coord) (q : Nat), q ≠ j →
      ((if c2 = c then (m.grid c2).erase j else m.grid c2).count q
        = (m.grid c2).count q) := by
    intro c2 q hq
    by_cases hc2 : c2 = c
    · rw [if_pos hc2, List.count_erase_of_ne hq]
    · rw [if_neg hc2]
  have hnot_j : ∀ c2 : Coord,
      j ∉ (if c2 = c then (m.grid c2).erase j else m.grid c2) := by
    intro c2
    by_cases hc2 : c2 = c
    · subst hc2
      rw [if_pos rfl, ← List.count_eq_zero, List.count_erase_self, hcnt]
    · rw [if_neg hc2]
      intro hmem
      obtain ⟨a, ha, hpos⟩ := hC c2 j hmem
      rw [hj] at ha
      cases ha
      rw [hjpos] at hpos
      injection hpos with h2
      exact hc2 h2.symm
  refine ⟨⟨?_, ?_, ?_, ?_, hE.erase j⟩, hE.not_mem_erase, hnot_j, rfl,
    List.getElem?_set_eq_of_lt _ hjlen, fun q hq => List.getElem?_set_ne hq.symm⟩
  · -- A
    intro i hi
    have hij : i ≠ j := by
      intro h
      subst h
      exact hE.not_mem_erase hi
    obtain ⟨a, ha, hsome⟩ := hA i (List.mem_of_mem_erase hi)
    exact ⟨a, by rw [List.getElem?_set_ne (fun h => hij h.symm)]; exact ha, hsome⟩
  · -- B
    intro i a2 ha2 hsome
    by_cases hij : i = j
    · subst hij
      rw [List.getElem?_set_eq_of_lt _ hjlen] at ha2
      cases ha2
      simp at hsome
    · rw [List.getElem?_set_ne (fun h => hij h.symm)] at ha2
      exact (List.mem_erase_of_ne hij).mpr (hB i a2 ha2 hsome)
  · -- C
    intro c2 i hi
    have hij : i ≠ j := fun h => hnot_j c2 (h ▸ hi)
    obtain ⟨a, ha, hpos⟩ := hC c2 i ((hgrid_mem c2 i hij).mp hi)
    exact ⟨a, by rw [List.getElem?_set_ne (fun h => hij h.symm)]; exact ha, hpos⟩
  · -- D
    intro i a2 c2 ha2 hpos2
    by_cases hij : i = j
    · subst hij
      rw [List.getElem?_set_eq_of_lt _ hjlen] at ha2
      cases ha2
      simp at hpos2
    · rw [List.getElem?_set_ne (fun h => hij h.symm)] at ha2
      rw [hgrid_cnt c2 i hij]
      exact hD i a2 c2 ha2 hpos2

theorem bump_eq (m : BattleModel) (i : Nat) (a : BattleAgent)
    (ha : m.agents[i]? = some a) :
    bump_strength m i =
      { m with agents := m.agents.set i { a with strength := a.strength + 1 } } := by
  simp only [bump_strength, ha]

theorem inv_set_same_pos (m : BattleModel) (i : Nat) (a b : BattleAgent)
    (ha : m.agents[i]? = some a) (hbp : b.pos = a.pos) (hInv : Inv m) :
    Inv { m with agents := m.agents.set i b } := by
  obtain ⟨hA, hB, hC, hD, hE⟩ := hInv
  have hilen : i < m.agents.length := lt_length_of_getElem?_some _ _ _ ha
  have hlook : ∀ (q : Nat) (aq : BattleAgent),
      (m.agents.set i b)[q]? = some aq →
      (q = i ∧ aq = b) ∨ (q ≠ i ∧ m.agents[q]? = some aq) := by
    intro q aq hq
    by_cases hqi : q = i
    · subst hqi
      rw [List.getElem?_set_eq_of_lt _ hilen] at hq
      cases hq
      exact Or.inl ⟨rfl, rfl⟩
    · rw [List.getElem?_set_ne (fun h => hqi h.symm)] at hq
      exact Or.inr ⟨hqi, hq⟩
  refine ⟨?_, ?_, ?_, ?_, hE⟩
  · intro q hq
    obtain ⟨aq, haq, hsome⟩ := hA q hq
    by_cases hqi : q = i
    · subst hqi
      refine ⟨b, List.getElem?_set_eq_of_lt _ hilen, ?_⟩
      rw [ha] at haq
      cases haq
      rw [hbp]
      exact hsome
    · exact ⟨aq, by rw [List.getElem?_set_ne (fun h => hqi h.symm)]; exact haq, hsome⟩
  · intro q aq hq hsome
    rcases hlook q aq hq with ⟨rfl, rfl⟩ | ⟨hqi, hq2⟩
    · rw [hbp] at hsome
      exact hB q a ha hsome
    · exact hB q aq hq2 hsome
  · intro c2 q hq
    obtain ⟨aq, haq, hpos⟩ := hC c2 q hq
    by_cases hqi : q = i
    · subst hqi
      refine ⟨b, List.getElem?_set_eq_of_lt _ hilen, ?_⟩
      rw [ha] at haq
      cases haq
      rw [hbp]
      exact hpos
    · exact ⟨aq, by rw [List.getElem?_set_ne (fun h => hqi h.symm)]; exact haq, hpos⟩
  · intro q aq c2 hq hpos
    rcases hlook q aq hq with ⟨rfl, rfl⟩ | ⟨hqi, hq2⟩
    · rw [hbp] at hpos
      exact hD q a c2 ha hpos
    · exact hD q aq c2 hq2 hpos

theorem place_fresh (m : BattleModel) (i : Nat) (a : BattleAgent) (c : Coord)
    (ha : m.agents[i]? = some a) (hpos : a.pos = none) :
    place_agent m i c =
      { m with grid := fun c2 => if c2 = c then m.grid c2 ++ [i] else m.grid c2,
               agents := m.agents.set i { a with pos := some c } } := by
  simp only [place_agent, ha]
  rw [if_pos (Or.inl hpos)]

theorem move_eq (m : BattleModel) (i : Nat) (a : BattleAgent) (c0 : Coord) (c : Coord)
    (ha : m.agents[i]? = some a) (hpos : a.pos = some c0) :
    move_agent m i c =
      { m with
        agents := m.agents.set i { a with pos := some (torus_adj m.width m.height c) },
        grid := fun c2 =>
          if c2 = torus_adj m.width m.height c
          then (if c2 = c0 then (m.grid c2).erase i else m.grid c2) ++ [i]
          else (if c2 = c0 then (m.grid c2).erase i else m.grid c2) } := by
  have hilen : i < m.agents.length := lt_length_of_getElem?_some _ _ _ ha
  unfold move_agent
  rw [remove_eq m i a c0 ha hpos]
  rw [place_fresh _ i { a with pos := none } _
    (List.getElem?_set_eq_of_lt _ hilen) rfl]
  simp [List.set_set]

theorem inv_move_agent (m : BattleModel) (i : Nat) (a : BattleAgent) (c0 : Coord)
    (c : Coord) (hInv : Inv m) (ha : m.agents[i]? = some a)
    (hpos : a.pos = some c0) (hsched : i ∈ m.schedule) :
    Inv (move_agent m i c) := by
  obtain ⟨hA, hB, hC, hD, hE⟩ := hInv
  have hilen : i < m.agents.length := lt_length_of_getElem?_some _ _ _ ha
  rw [move_eq m i a c0 c ha hpos]
  have hcnt0 : (m.grid c0).count i = 1 := hD i a c0 ha hpos
  have hcnt_other : ∀ c2 : Coord, c2 ≠ c0 → (m.grid c2).count i = 0 := by
    intro c2 hc2
    rw [List.count_eq_zero]
    intro hmem
    obtain ⟨a2, ha2, hp2⟩ := hC c2 i hmem
    rw [ha] at ha2
    cases ha2
    rw [hpos] at hp2
    injection hp2 with h2
    exact hc2 h2.symm
  have hEcnt_i : ∀ c2 : Coord,
      (if c2 = c0 then (m.grid c2).erase i else m.grid c2).count i = 0 := by
    intro c2
    by_cases hc2 : c2 = c0
    · subst hc2
      rw [if_pos rfl, List.count_erase_self, hcnt0]
    · rw [if_neg hc2]
      exact hcnt_other c2 hc2
  have hEcnt_q : ∀ (c2 : Coord) (q : Nat), q ≠ i →
      (if c2 = c0 then (m.grid c2).erase i else m.grid c2).count q
        = (m.grid c2).count q := by
    intro c2 q hq
    by_cases hc2 : c2 = c0
    · rw [if_pos hc2, List.count_erase_of_ne hq]
    · rw [if_neg hc2]
  have hnotE : ∀ c2 : Coord,
      i ∉ (if c2 = c0 then (m.grid c2).erase i else m.grid c2) := by
    intro c2
    exact List.count_eq_zero.mp (hEcnt_i c2)
  have hmemE : ∀ (c2 : Coord) (q : Nat), q ≠ i →
      (q ∈ (if c2 = c0 then (m.grid c2).erase i else m.grid c2) ↔ q ∈ m.grid c2) := by
    intro c2 q hq
    by_cases hc2 : c2 = c0
    · rw [if_pos hc2, List.mem_erase_of_ne hq]
    · rw [if_neg hc2]
  have hlook : ∀ (q : Nat) (aq : BattleAgent),
      (m.agents.set i { a with pos := some (torus_adj m.width m.height c) })[q]?
        = some aq →
      (q = i ∧ aq = { a with pos := some (torus_adj m.width m.height c) }) ∨
      (q ≠ i ∧ m.agents[q]? = some aq) := by
    intro q aq hq
    by_cases hqi : q = i
    · subst hqi
      rw [List.getElem?_set_eq_of_lt _ hilen] at hq
      cases hq
      exact Or.inl ⟨rfl, rfl⟩
    · rw [List.getElem?_set_ne (fun h => hqi h.symm)] at hq
      exact Or.inr ⟨hqi, hq⟩
  refine ⟨?_, ?_, ?_, ?_, hE⟩
  · -- A
    intro q hq
    by_cases hqi : q = i
    · subst hqi
      exact ⟨_, List.getElem?_set_eq_of_lt _ hilen, rfl⟩
    · obtain ⟨aq, haq, hsome⟩ := hA q hq
      exact ⟨aq, by rw [List.getElem?_set_ne (fun h => hqi h.symm)]; exact haq, hsome⟩
  · -- B
    intro q aq hq hsome
    rcases hlook q aq hq with ⟨rfl, rfl⟩ | ⟨hqi, hq2⟩
    · exact hsched
    · exact hB q aq hq2 hsome
  · -- C
    intro c2 q hq
    simp only at hq
    by_cases hqi : q = i
    · subst hqi
      by_cases hc2 : c2 = torus_adj m.width m.height c
      · subst hc2
        exact ⟨_, List.getElem?_set_eq_of_lt _ hilen, rfl⟩
      · rw [if_neg hc2] at hq
        exact absurd hq (hnotE c2)
    · have hq2 : q ∈ m.grid c2 := by
        by_cases hc2 : c2 = torus_adj m.width m.height c
        · rw [if_pos hc2] at hq
          rcases List.mem_append.mp hq with h1 | h1
          · exact (hmemE c2 q hqi).mp h1
          · exact absurd (List.mem_singleton.mp h1) hqi
        · rw [if_neg hc2] at hq
          exact (hmemE c2 q hqi).mp hq
      obtain ⟨aq, haq, hposq⟩ := hC c2 q hq2
      exact ⟨aq, by rw [List.getElem?_set_ne (fun h => hqi h.symm)]; exact haq, hposq⟩
  · -- D
    intro q aq c2 hq hpos2
    simp only
    rcases hlook q aq hq with ⟨rfl, rfl⟩ | ⟨hqi, hq2⟩
    · simp only at hpos2
      injection hpos2 with h2
      subst h2
      rw [if_pos rfl, List.count_append, hEcnt_i]
      simp
    · by_cases hc2 : c2 = torus_adj m.width m.height c
      · rw [if_pos hc2, List.count_append, hEcnt_q c2 q hqi]
        have : [i].count q = 0 := by
          rw [List.count_eq_zero]
          intro h
          exact hqi (List.mem_singleton.mp h)
        rw [this, Nat.add_zero]
        exact hD q aq c2 hq2 hpos2
      · rw [if_neg hc2, hEcnt_q c2 q hqi]
        exact hD q aq c2 hq2 hpos2

theorem inv_combat (i : Nat) (os : List Nat) :
    ∀ (m : BattleModel), Inv m → Inv (combat i m os) := by
  induction os with
  | nil => intro m h; exact h
  | cons j rest ih =>
    intro m hInv
    rcases h1 : m.agents[i]? with _ | a
    · rcases h2 : m.agents[j]? with _ | o
      · simp only [combat, h1, h2]
        exact ih m hInv
      · simp only [combat, h1, h2]
        exact ih m hInv
    · rcases h2 : m.agents[j]? with _ | o
      · simp only [combat, h1, h2]
        exact ih m hInv
      · simp only [combat, h1, h2]
        by_cases hne : j ≠ i ∧ o.team ≠ a.team
        · rw [if_pos hne]
          have hij : i ≠ j := fun h => hne.1 h.symm
          by_cases hwin : o.health < a.strength
          · rw [if_pos hwin]
            by_cases hjp : o.pos ≠ none
            · rw [if_pos hjp]
              obtain ⟨c, hc⟩ : ∃ c, o.pos = some c := by
                rcases ho : o.pos with _ | c
                · exact absurd ho hjp
                · exact ⟨c, rfl⟩
              have hk := inv_kill m j o c hInv h2 hc
              have hai : (schedule_remove (remove_agent m j) j).agents[i]?
                  = some a := (hk.2.2.2.2.2 i hij).trans h1
              rw [bump_eq _ i a hai]
              exact ih _ (inv_set_same_pos _ i a _ hai rfl hk.1)
            · rw [if_neg hjp]
              rw [bump_eq m i a h1]
              exact ih _ (inv_set_same_pos m i a _ h1 rfl hInv)
          · rw [if_neg hwin]
            by_cases hlose : a.health < o.strength
            · rw [if_pos hlose]
              by_cases hip : a.pos ≠ none
              · rw [if_pos hip]
                obtain ⟨c, hc⟩ : ∃ c, a.pos = some c := by
                  rcases hap : a.pos with _ | c
                  · exact absurd hap hip
                  · exact ⟨c, rfl⟩
                have hk := inv_kill m i a c hInv h1 hc
                have haj : (schedule_remove (remove_agent m i) i).agents[j]?
                    = some o := (hk.2.2.2.2.2 j hne.1).trans h2
                rw [bump_eq _ j o haj]
                exact inv_set_same_pos _ j o _ haj rfl hk.1
              · rw [if_neg hip]
                rw [bump_eq m j o h2]
                exact inv_set_same_pos m j o _ h2 rfl hInv
            · rw [if_neg hlose]
              exact ih m hInv
        · rw [if_neg hne]
          exact ih m hInv

theorem inv_agent_step (g : Nat → Nat) (m : BattleModel) (i k : Nat)
    (hInv : Inv m) (hi : i ∈ m.schedule) : Inv (agent_step g m i k).1 := by
  obtain ⟨a, ha, hsome⟩ := hInv.1 i hi
  rcases hp : a.pos with _ | c0
  · rw [hp] at hsome
    simp at hsome
  · simp only [agent_step, ha]
    by_cases he : (possible_moves_of m a).isEmpty
    · rw [if_pos he]
      exact hInv
    · rw [if_neg he]
      simp only
      exact inv_combat i _ _ (inv_move_agent m i a c0 _ hInv ha hp hi)

theorem inv_foldl (g : Nat → Nat) (l : List Nat) :
    ∀ (mk : BattleModel × Nat), Inv mk.1 →
      Inv ((l.foldl
        (fun mk j => if j ∈ mk.1.schedule then agent_step g mk.1 j mk.2 else mk)
        mk).1) := by
  induction l with
  | nil => intro mk h; exact h
  | cons j rest ih =>
    intro mk h
    rw [List.foldl_cons]
    refine ih _ ?_
    show Inv (if j ∈ mk.1.schedule then agent_step g mk.1 j mk.2 else mk).1
    by_cases hj : j ∈ mk.1.schedule
    · rw [if_pos hj]
      exact inv_agent_step g mk.1 j mk.2 h hj
    · rw [if_neg hj]
      exact h

theorem inv_model_step (g : Nat → Nat) (m : BattleModel) (k : Nat)
    (hInv : Inv m) : Inv (model_step g m k).1 :=
  inv_foldl g m.schedule (m, k) hInv

theorem inv_create (m m2 : BattleModel) (a2 : BattleAgent)
    (hInv : Inv m)
    (hagents : m2.agents = m.agents ++ [a2])
    (hsch : m2.schedule = m.schedule ++ [m.agents.length])
    (hgrid : m2.grid = fun c2 => if c2 = ((a2.x, a2.y) : Coord)
      then m.grid c2 ++ [m.agents.length] else m.grid c2)
    (hpos : a2.pos = some (a2.x, a2.y)) : Inv m2 := by
  obtain ⟨hA, hB, hC, hD, hE⟩ := hInv
  have hLnone : m.agents[m.agents.length]? = none :=
    List.getElem?_eq_none (Nat.le_refl _)
  have hLsched : m.agents.length ∉ m.schedule := by
    intro h
    obtain ⟨a, ha, _⟩ := hA _ h
    rw [hLnone] at ha
    cases ha
  have hLgrid : ∀ c2 : Coord, m.agents.length ∉ m.grid c2 := by
    intro c2 h
    obtain ⟨a, ha, _⟩ := hC c2 _ h
    rw [hLnone] at ha
    cases ha
  have hlook : ∀ (q : Nat) (aq : BattleAgent), m2.agents[q]? = some aq →
      (q = m.agents.length ∧ aq = a2) ∨
      (q < m.agents.length ∧ m.agents[q]? = some aq) := by
    intro q aq hq
    rw [hagents] at hq
    by_cases hql : q = m.agents.length
    · subst hql
      rw [List.getElem?_concat_length] at hq
      cases hq
      exact Or.inl ⟨rfl, rfl⟩
    · by_cases hlt : q < m.agents.length
      · rw [List.getElem?_append_left hlt] at hq
        exact Or.inr ⟨hlt, hq⟩
      · rw [List.getElem?_eq_none (by simp; omega)] at hq
        cases hq
  refine ⟨?_, ?_, ?_, ?_, ?_⟩
  · -- A
    intro q hq
    rw [hsch] at hq
    rcases List.mem_append.mp hq with h1 | h1
    · obtain ⟨a, ha, hsome⟩ := hA q h1
      have hlt : q < m.agents.length := lt_length_of_getElem?_some _ _ _ ha
      refine ⟨a, ?_, hsome⟩
      rw [hagents, List.getElem?_append_left hlt]
      exact ha
    · rw [List.mem_singleton.mp h1]
      refine ⟨a2, ?_, by rw [hpos]; rfl⟩
      rw [hagents, List.getElem?_concat_length]
  · -- B
    intro q aq hq hsome
    rw [hsch]
    rcases hlook q aq hq with ⟨rfl, rfl⟩ | ⟨hlt, hq2⟩
    · exact List.mem_append.mpr (Or.inr (List.mem_singleton.mpr rfl))
    · exact List.mem_append.mpr (Or.inl (hB q aq hq2 hsome))
  · -- C
    intro c2 q hq
    rw [hgrid] at hq
    simp only at hq
    by_cases hc2 : c2 = (a2.x, a2.y)
    · rw [if_pos hc2] at hq
      rcases List.mem_append.mp hq with h1 | h1
      · obtain ⟨a, ha, hposa⟩ := hC c2 q h1
        have hlt : q < m.agents.length := lt_length_of_getElem?_some _ _ _ ha
        refine ⟨a, ?_, hposa⟩
        rw [hagents, List.getElem?_append_left hlt]
        exact ha
      · rw [List.mem_singleton.mp h1]
        refine ⟨a2, ?_, by rw [hpos, hc2]⟩
        rw [hagents, List.getElem?_concat_length]
    · rw [if_neg hc2] at hq
      obtain ⟨a, ha, hposa⟩ := hC c2 q hq
      have hlt : q < m.agents.length := lt_length_of_getElem?_some _ _ _ ha
      refine ⟨a, ?_, hposa⟩
      rw [hagents, List.getElem?_append_left hlt]
      exact ha
  · -- D
    intro q aq c2 hq hpos2
    rw [hgrid]
    simp only
    rcases hlook q aq hq with ⟨rfl, rfl⟩ | ⟨hlt, hq2⟩
    · rw [hpos] at hpos2
      injection hpos2 with h2
      rw [if_pos h2.symm, List.count_append]
      rw [List.count_eq_zero.mpr (hLgrid c2), List.count_singleton]
      simp
    · have hql : q ≠ m.agents.length := Nat.ne_of_lt hlt
      by_cases hc2 : c2 = (a2.x, a2.y)
      · rw [if_pos hc2, List.count_append]
        have : List.count q [m.agents.length] = 0 := by
          rw [List.count_eq_zero]
          intro h
          exact hql (List.mem_singleton.mp h)
        rw [this, Nat.add_zero]
        exact hD q aq c2 hq2 hpos2
      · rw [if_neg hc2]
        exact hD q aq c2 hq2 hpos2
  · -- E
    rw [hsch]
    rw [List.nodup_append]
    exact ⟨hE, List.nodup_singleton _, by
      intro x hx hx2
      rw [List.mem_singleton.mp hx2] at hx
      exact hLsched hx⟩

theorem init_loop_inv (g : Nat → Nat) (n : Nat) :
    ∀ (m : BattleModel) (k : Nat) (m2 : BattleModel) (k2 : Nat), Inv m →
      init_loop g n m k = .ok (m2, k2) → Inv m2 := by
  induction n with
  | zero =>
    intro m k m2 k2 h h0
    simp only [init_loop] at h0
    obtain ⟨rfl, rfl⟩ : m = m2 ∧ k = k2 := by
      constructor <;> [injection h0 with h1; injection h0 with h1] <;>
        [exact congrArg Prod.fst h1; exact congrArg Prod.snd h1]
    exact h
  | succ n ih =>
    intro m k m2 k2 h h0
    have ht : m.teams ≠ [] := by
      intro hte
      have hce : create_agent g m k
          = .error "IndexError: cannot choose from an empty sequence" := by
        simp [create_agent, random_choice, hte]
      rw [init_loop] at h0
      rw [hce] at h0
      simp only [bind, Except.bind] at h0
      cases h0
    obtain ⟨mc, ac, hca, hteams, hw, hh, hmd, hnum, hagents, hsch, hgridc,
      huid, hteamm, hstr, hhp, hmd2, hx, hy, hposc⟩ := create_agent_ok g m k ht
    rw [init_loop, hca] at h0
    simp only [bind, Except.bind] at h0
    exact ih mc (k + 5) m2 k2 (inv_create m mc ac h hagents hsch hgridc hposc) h0

theorem inv_init (g : Nat → Nat) (N w h : Nat) (teams : List String) (md k : Nat)
    (m : BattleModel) (k2 : Nat)
    (h0 : BattleModel.init g N w h teams md k = .ok (m, k2)) : Inv m := by
  refine init_loop_inv g N
    { num_agents := N, width := w, height := h, teams := teams,
      move_distance := md, agents := [], schedule := [],
      grid := fun _ => [] } k m k2 ⟨?_, ?_, ?_, ?_, ?_⟩ h0
  · intro i hi
    exact absurd hi (List.not_mem_nil i)
  · intro i a ha hsome
    rw [List.getElem?_nil] at ha
    cases ha
  · intro c i hi
    exact absurd hi (List.not_mem_nil i)
  · intro i a c ha hpos
    rw [List.getElem?_nil] at ha
    cases ha
  · exact List.nodup_nil

theorem inv_reachable (g : Nat → Nat) (m : BattleModel)
    (hr : Reachable g m) : Inv m := by
  induction hr with
  | boot N w h teams md k k2 m h0 => exact inv_init g N w h teams md k m k2 h0
  | tick m k h0 ih => exact inv_model_step g m k ih

/-- Claim C5: in every state reachable by construction followed by any
sequence of `step()` calls, occupancy is consistent: each live agent's id is
in the occupant list of the cell it occupies, a removed agent's id is in no
cell, and no cell holds a stale entry for an agent positioned elsewhere. -/
theorem occupancy_consistency (g : Nat → Nat) (m : BattleModel)
    (hr : Reachable g m) : OccupancyConsistent m := by
  obtain ⟨hA, hB, hC, hD, hE⟩ := inv_reachable g m hr
  refine ⟨?_, ?_, ?_⟩
  · intro i hi
    obtain ⟨a, ha, hsome⟩ := hA i hi
    rcases hp : a.pos with _ | c
    · rw [hp] at hsome
      simp at hsome
    · refine ⟨a, c, ha, hp, ?_⟩
      have hcnt := hD i a c ha hp
      exact List.count_pos_iff.mp (by omega)
  · intro i hns c hmem
    obtain ⟨a, ha, hp⟩ := hC c i hmem
    exact hns (hB i a ha (by rw [hp]; rfl))
  · intro i a c c2 ha hp hmem
    obtain ⟨a2, ha2, hp2⟩ := hC c2 i hmem
    rw [ha] at ha2
    cases ha2
    rw [hp] at hp2
    injection hp2 with h2
    exact h2.symm

/-- Witness for C5: the demo model after construction and one tick. -/
theorem occupancy_witness : OccupancyConsistent demo1 :=
  occupancy_consistency gZero demo1
    (Reachable.tick demo0 5 (Reachable.boot 1 5 5 ["Red"] 1 0 5 demo0 rfl))

/-- Claim C4: one iteration of combat resolution behaves as specified.  For
a mover `i` (record `a`) inspecting occupant `j` (record `o`) of a different
team at the head of the cellmate list: if the mover's strength exceeds the
occupant's health, the occupant is removed from both the schedule and every
grid cell, the mover's strength increments by 1, and evaluation continues
with the remaining occupants; otherwise, if the occupant's strength exceeds
the mover's health, the mover is removed the same way, the occupant's
strength increments by 1, and no further occupants are evaluated; otherwise
nothing changes and the next occupant is considered. -/
theorem combat_resolution_cases (m : BattleModel) (i j : Nat)
    (a o : BattleAgent) (ca co : Coord) (rest : List Nat) (hInv : Inv m)
    (hi : m.agents[i]? = some a) (hj : m.agents[j]? = some o)
    (hji : j ≠ i) (hteam : o.team ≠ a.team)
    (hipos : a.pos = some ca) (hjpos : o.pos = some co) :
    CombatClaim m i j a o rest := by
  have hij : i ≠ j := fun h => hji h.symm
  have hjp : o.pos ≠ none := by
    rw [hjpos]
    exact fun h => Option.noConfusion h
  have hip : a.pos ≠ none := by
    rw [hipos]
    exact fun h => Option.noConfusion h
  refine ⟨?_, ?_, ?_⟩
  · intro hwin
    have hk := inv_kill m j o co hInv hj hjpos
    have hai : (schedule_remove (remove_agent m j) j).agents[i]? = some a :=
      (hk.2.2.2.2.2 i hij).trans hi
    have hailt : i < (schedule_remove (remove_agent m j) j).agents.length :=
      lt_length_of_getElem?_some _ _ _ hai
    refine ⟨bump_strength (schedule_remove (remove_agent m j) j) i,
      ?_, ?_, ?_, ?_, ?_, ?_⟩
    · simp only [combat, hi, hj]
      rw [if_pos ⟨hji, hteam⟩, if_pos hwin, if_pos hjp]
    · rw [bump_eq _ i a hai]
      exact hk.2.1
    · rw [bump_eq _ i a hai]
      exact hk.2.2.1
    · rw [bump_eq _ i a hai]
      exact hk.2.2.2.1
    · rw [bump_eq _ i a hai]
      exact List.getElem?_set_eq_of_lt _ hailt
    · intro q hqi hqj
      rw [bump_eq _ i a hai]
      show ((schedule_remove (remove_agent m j) j).agents.set i _)[q]? = _
      rw [List.getElem?_set_ne (fun h => hqi h.symm)]
      exact hk.2.2.2.2.2 q hqj
  · intro hnwin hlose
    have hk := inv_kill m i a ca hInv hi hipos
    have haj : (schedule_remove (remove_agent m i) i).agents[j]? = some o :=
      (hk.2.2.2.2.2 j hji).trans hj
    have hajlt : j < (schedule_remove (remove_agent m i) i).agents.length :=
      lt_length_of_getElem?_some _ _ _ haj
    have hres : ∀ r2 : List Nat, combat i m (j :: r2)
        = bump_strength (schedule_remove (remove_agent m i) i) j := by
      intro r2
      simp only [combat, hi, hj]
      rw [if_pos ⟨hji, hteam⟩, if_neg hnwin, if_pos hlose, if_pos hip]
    refine ⟨fun rest2 => (hres rest2).trans (hres rest).symm, ?_, ?_, ?_, ?_⟩
    · rw [hres rest, bump_eq _ j o haj]
      exact hk.2.1
    · rw [hres rest, bump_eq _ j o haj]
      exact hk.2.2.1
    · rw [hres rest, bump_eq _ j o haj]
      exact hk.2.2.2.1
    · rw [hres rest, bump_eq _ j o haj]
      exact List.getElem?_set_eq_of_lt _ hajlt
  · intro hnwin hnlose
    simp only [combat, hi, hj]
    rw [if_pos ⟨hji, hteam⟩, if_neg hnwin, if_neg hnlose]

/-- Witness for C4 on the concrete two-agent model where Red and Blue start
on the same cell. -/
theorem combat_resolution_witness :
    CombatClaim demo_pair 1 0
      { unique_id := 1, team := "Blue", strength := 7, health := 12,
        move_distance := 1, x := 3, y := 4, pos := some (3, 4) }
      { unique_id := 0, team := "Red", strength := 2, health := 7,
        move_distance := 1, x := 3, y := 4, pos := some (3, 4) } [] :=
  combat_resolution_cases demo_pair 1 0
    { unique_id := 1, team := "Blue", strength := 7, health := 12,
      move_distance := 1, x := 3, y := 4, pos := some (3, 4) }
    { unique_id := 0, team := "Red", strength := 2, health := 7,
      move_distance := 1, x := 3, y := 4, pos := some (3, 4) }
    (3, 4) (3, 4) []
    (inv_init gId 2 5 5 ["Red", "Blue"] 1 0 demo_pair 10 rfl)
    (by decide) (by decide) (by decide) (by decide) (by decide) (by decide)

end Battle
